import Mathlib

/-!
Verification of the sandhi-splitting core (`src/main.rs`) and the DCS tag
standardizer (`src/dcs.rs`).

Rust strings are modelled as `List Char`; Rust byte indexing is modelled
through `byteLen` and the slice operations below, which fail exactly when
the Rust slice `&input[i..j]` would panic (index out of range or not on a
character boundary).  The `multimap::MultiMap` used as the rule table is
modelled as an ordered association list from keys to the vector of values
inserted for that key, preserving per-key insertion order as the crate does.
-/

set_option maxHeartbeats 1000000

/-- The UTF-8 byte length of a Rust string modelled as a list of chars
(Rust `str::len`). -/
def byteLen (s : List Char) : Nat := (s.map Char.utf8Size).sum

/-- Rust `String::replace(" ", "")`: remove every space character. -/
def removeSpaces (s : List Char) : List Char := s.filter (fun c => c != ' ')

/-- Model of `multimap::MultiMap<String, (String, String)>`: an ordered list
of (key, vector of values inserted for that key) entries.  The position of a
key in this list does not matter for any operation the program performs
(`keys()` is only used for a maximum). -/
abbrev MMap := List (List Char × List (List Char × List Char))

/-- Model of `MultiMap::insert`: push the value onto the key's vector, or register a
new key with a one-element vector. -/
def mmInsert (m : MMap) (k : List Char) (v : List Char × List Char) : MMap :=
  match m with
  | [] => [(k, [v])]
  | e :: rest => if e.1 = k then (e.1, e.2 ++ [v]) :: rest else e :: mmInsert rest k v

/-- Model of `MultiMap::get_vec`: the vector of values for a key, `none` if the key
was never inserted. -/
def get_vec : MMap → List Char → Option (List (List Char × List Char))
  | [], _ => none
  | e :: rest, k => if e.1 = k then some e.2 else get_vec rest k

/-- The spec's `lookup` operation: the ordered pairs registered for a key,
empty if the key is absent (`split` realizes this by treating a `None` from
`get_vec` as "no candidates"). -/
def lookupL (m : MMap) (k : List Char) : List (List Char × List Char) :=
  (get_vec m k).getD []

/-- Model of `read_sandhi_rules` (src/main.rs lines 8-28), over already-parsed TSV
rows `(first, second, result)`: insert `result -> (first, second)`, and when
`result` with spaces removed differs from `result`, also insert the
space-stripped key with the same pair. -/
def read_sandhi_rules (rows : List (List Char × List Char × List Char)) : MMap :=
  rows.foldl
    (fun rules row =>
      let first := row.1
      let second := row.2.1
      let result := row.2.2
      let rules1 := mmInsert rules result (first, second)
      let result_no_spaces := removeSpaces result
      if result_no_spaces ≠ result then mmInsert rules1 result_no_spaces (first, second)
      else rules1)
    []

/-- Model of `rules.keys().map(|x| x.len()).max()`: the maximum key byte length, or
`none` when the table is empty.  Duplicate keys cannot occur in an `MMap`,
and a maximum is insensitive to key order. -/
def maxKeyLenOpt : MMap → Option Nat
  | [] => none
  | e :: rest =>
    some (match maxKeyLenOpt rest with
          | none => byteLen e.1
          | some l => max (byteLen e.1) l)

/-- Failure modes of the Rust `split` and its callees.  `panicked` models a
Rust panic carrying its message (`expect`), `charBoundaryPanic` models the
panic of slicing a `str` outside char boundaries, and `emptyTableError` is
the typed error the spec's error taxonomy names (`EmptyTableError`); the
code never constructs it, and it exists here only so that the spec's claim
about it can be stated and compared against what the code does. -/
inductive Failure where
  | panicked (msg : String)
  | charBoundaryPanic
  | emptyTableError
  deriving DecidableEq

/-- Result of a computation that can panic, with decidable equality so that
concrete runs can be checked by evaluation. -/
inductive SplitRes (α : Type) where
  | ok (val : α)
  | err (e : Failure)
  deriving DecidableEq

/-- Dropping `n` bytes from the front of a string, `none` when `n` is not a
character boundary of the string (or exceeds its byte length). -/
def byteDropE : List Char → Nat → Option (List Char)
  | s, 0 => some s
  | [], _ + 1 => none
  | c :: cs, n + 1 =>
    if c.utf8Size ≤ n + 1 then byteDropE cs (n + 1 - c.utf8Size) else none

/-- Taking the first `n` bytes of a string, `none` when `n` is not a
character boundary of the string (or exceeds its byte length). -/
def byteTakeE : List Char → Nat → Option (List Char)
  | _, 0 => some []
  | [], _ + 1 => none
  | c :: cs, n + 1 =>
    if c.utf8Size ≤ n + 1 then (byteTakeE cs (n + 1 - c.utf8Size)).map (c :: ·) else none

/-- The Rust slice `&s[i..j]` by byte offsets: defined exactly when
`i ≤ j`, both offsets lie on character boundaries, and `j` is at most the
byte length. -/
def byteSliceE (s : List Char) (i j : Nat) : Option (List Char) :=
  if i ≤ j then (byteDropE s i).bind (fun t => byteTakeE t (j - i)) else none

/-- The slice `&s[i..j]`, with the failure case surfaced as the char-boundary
panic. -/
def sliceE (s : List Char) (i j : Nat) : SplitRes (List Char) :=
  match byteSliceE s i j with
  | some v => .ok v
  | none => .err .charBoundaryPanic

/-- The innermost loop of `split` (src/main.rs lines 45-49): for each
decomposition pair `(f, s)` returned for the matched window `[i, j)`, push
the candidate `(input[0..i] + f, s + input[j..])`. -/
def forPairs (input : List Char) (i j : Nat) :
    List (List Char × List Char) → List (List Char × List Char) →
      SplitRes (List (List Char × List Char))
  | [], res => .ok res
  | p :: rest, res =>
    match sliceE input 0 i with
    | .err e => .err e
    | .ok pre =>
      match sliceE input j (byteLen input) with
      | .err e => .err e
      | .ok suf => forPairs input i j rest (res ++ [(pre ++ p.1, p.2 ++ suf)])

/-- The window loop of `split` (src/main.rs lines 41-53):
`for j in i..min(len_input, i + len_longest_key)`, slice the window
`input[i..j]`, query the table, and push a candidate per returned pair. -/
def forJ (input : List Char) (rules : MMap) (i : Nat) :
    List Nat → List (List Char × List Char) → SplitRes (List (List Char × List Char))
  | [], res => .ok res
  | j :: rest, res =>
    match sliceE input i j with
    | .err e => .err e
    | .ok combination =>
      match get_vec rules combination with
      | some pairs =>
        match forPairs input i j pairs res with
        | .err e => .err e
        | .ok res2 => forJ input rules i rest res2
      | none => forJ input rules i rest res

/-- The position loop of `split` (src/main.rs lines 34-54):
`for i in 0..len_input`, push the baseline candidate
`(input[0..i], input[i..])`, then run the window loop. -/
def forI (input : List Char) (rules : MMap) (L : Nat) :
    List Nat → List (List Char × List Char) → SplitRes (List (List Char × List Char))
  | [], res => .ok res
  | i :: rest, res =>
    match sliceE input 0 i with
    | .err e => .err e
    | .ok pre =>
      match sliceE input i (byteLen input) with
      | .err e => .err e
      | .ok suf =>
        match forJ input rules i (List.range' i (min (byteLen input) (i + L) - i))
            (res ++ [(pre, suf)]) with
        | .err e => .err e
        | .ok res2 => forI input rules L rest res2

/-- Model of `split` (src/main.rs lines 30-56).  `rules.keys().map(len).max().expect`
panics with "Map is empty" on an empty table; otherwise the position loop
runs over the byte positions `0..len_input`. -/
def split (input : List Char) (rules : MMap) : SplitRes (List (List Char × List Char)) :=
  match maxKeyLenOpt rules with
  | none => .err (.panicked "Map is empty")
  | some L => forI input rules L (List.range (byteLen input)) []

/-- The sandhi candidates `split` emits at position `i` after the baseline,
read at the character level (valid when every character is one byte wide):
windows `[i, j)` for `j` from `i` up to but excluding
`min (length input) (i + L)`, each matched pair mapped to its candidate in
table order. -/
def sandhiAt (input : List Char) (rules : MMap) (L i : Nat) :
    List (List Char × List Char) :=
  (List.range' i (min input.length (i + L) - i)).flatMap (fun j =>
    (lookupL rules ((input.drop i).take (j - i))).map (fun p =>
      (input.take i ++ p.1, p.2 ++ input.drop j)))

/-- The block of candidates `split` emits at position `i`: the baseline
split first, then the sandhi candidates. -/
def blockAt (input : List Char) (rules : MMap) (L i : Nat) :
    List (List Char × List Char) :=
  (input.take i, input.drop i) :: sandhiAt input rules L i

/-- The full candidate sequence of `split`, read at the character level:
blocks for each position `i` ascending. -/
def splitChars (input : List Char) (rules : MMap) (L : Nat) :
    List (List Char × List Char) :=
  (List.range input.length).flatMap (blockAt input rules L)

theorem byteLen_eq_length (s : List Char) (h : ∀ c ∈ s, c.utf8Size = 1) :
    byteLen s = s.length := by
  induction s with
  | nil => rfl
  | cons c cs ih =>
    have hc : c.utf8Size = 1 := h c (by simp)
    have ih' := ih (fun d hd => h d (by simp [hd]))
    simp only [byteLen, List.map_cons, List.sum_cons, List.length_cons] at ih' ⊢
    omega

theorem byteDropE_ascii (s : List Char) (h : ∀ c ∈ s, c.utf8Size = 1) :
    ∀ i, i ≤ s.length → byteDropE s i = some (s.drop i) := by
  induction s with
  | nil =>
    intro i hi
    have : i = 0 := Nat.le_zero.mp hi
    subst this
    rfl
  | cons c cs ih =>
    intro i hi
    match i with
    | 0 => rfl
    | n + 1 =>
      have hc : c.utf8Size = 1 := h c (by simp)
      rw [byteDropE, if_pos (by omega), hc]
      simpa using ih (fun d hd => h d (by simp [hd])) n (by simpa using hi)

theorem byteTakeE_ascii (s : List Char) (h : ∀ c ∈ s, c.utf8Size = 1) :
    ∀ i, i ≤ s.length → byteTakeE s i = some (s.take i) := by
  induction s with
  | nil =>
    intro i hi
    have : i = 0 := Nat.le_zero.mp hi
    subst this
    rfl
  | cons c cs ih =>
    intro i hi
    match i with
    | 0 => rfl
    | n + 1 =>
      have hc : c.utf8Size = 1 := h c (by simp)
      rw [byteTakeE, if_pos (by omega), hc]
      simp only [Nat.add_sub_cancel]
      rw [ih (fun d hd => h d (by simp [hd])) n (by simpa using hi)]
      rfl

theorem byteSliceE_ascii (s : List Char) (h : ∀ c ∈ s, c.utf8Size = 1)
    (i j : Nat) (hij : i ≤ j) (hj : j ≤ s.length) :
    byteSliceE s i j = some ((s.drop i).take (j - i)) := by
  have hd : ∀ d ∈ s.drop i, d.utf8Size = 1 := fun d hd => h d (List.drop_subset i s hd)
  rw [byteSliceE, if_pos hij, byteDropE_ascii s h i (le_trans hij hj)]
  rw [Option.some_bind]
  exact byteTakeE_ascii _ hd (j - i) (by rw [List.length_drop]; omega)

theorem sliceE_take (s : List Char) (h : ∀ c ∈ s, c.utf8Size = 1)
    (i : Nat) (hi : i ≤ s.length) : sliceE s 0 i = .ok (s.take i) := by
  rw [sliceE, byteSliceE_ascii s h 0 i (Nat.zero_le _) hi]
  simp

theorem sliceE_drop (s : List Char) (h : ∀ c ∈ s, c.utf8Size = 1)
    (i : Nat) (hi : i ≤ s.length) : sliceE s i (byteLen s) = .ok (s.drop i) := by
  rw [byteLen_eq_length s h, sliceE, byteSliceE_ascii s h i s.length hi le_rfl]
  rw [← List.length_drop i s, List.take_length]

theorem sliceE_window (s : List Char) (h : ∀ c ∈ s, c.utf8Size = 1)
    (i j : Nat) (hij : i ≤ j) (hj : j ≤ s.length) :
    sliceE s i j = .ok ((s.drop i).take (j - i)) := by
  rw [sliceE, byteSliceE_ascii s h i j hij hj]

theorem sliceE_drop' (s : List Char) (h : ∀ c ∈ s, c.utf8Size = 1)
    (i : Nat) (hi : i ≤ s.length) : sliceE s i s.length = .ok (s.drop i) := by
  have hs := sliceE_drop s h i hi
  rwa [byteLen_eq_length s h] at hs

theorem forPairs_ascii (input : List Char) (h : ∀ c ∈ input, c.utf8Size = 1)
    (i j : Nat) (hi : i ≤ input.length) (hj : j ≤ input.length) :
    ∀ (pairs res : List (List Char × List Char)),
      forPairs input i j pairs res =
        .ok (res ++ pairs.map (fun p => (input.take i ++ p.1, p.2 ++ input.drop j))) := by
  intro pairs
  induction pairs with
  | nil => intro res; simp [forPairs]
  | cons p rest ih =>
    intro res
    simp only [forPairs, byteLen_eq_length input h, sliceE_take input h i hi,
      sliceE_drop' input h j hj, ih]
    simp

theorem forJ_ascii (input : List Char) (h : ∀ c ∈ input, c.utf8Size = 1)
    (rules : MMap) (i : Nat) (hi : i ≤ input.length) :
    ∀ (js : List Nat), (∀ j ∈ js, i ≤ j ∧ j ≤ input.length) →
      ∀ res, forJ input rules i js res =
        .ok (res ++ js.flatMap (fun j =>
          (lookupL rules ((input.drop i).take (j - i))).map (fun p =>
            (input.take i ++ p.1, p.2 ++ input.drop j)))) := by
  intro js
  induction js with
  | nil => intro _ res; simp [forJ]
  | cons j rest ih =>
    intro hjs res
    obtain ⟨hij, hjlen⟩ := hjs j (by simp)
    have hrest : ∀ x ∈ rest, i ≤ x ∧ x ≤ input.length := fun x hx => hjs x (by simp [hx])
    simp only [forJ, sliceE_window input h i j hij hjlen]
    cases hg : get_vec rules ((input.drop i).take (j - i)) with
    | none =>
      simp only [hg, ih hrest]
      simp [lookupL, hg]
    | some pairs =>
      simp only [hg, forPairs_ascii input h i j hi hjlen pairs, ih hrest]
      simp [lookupL, hg, List.append_assoc]

theorem forI_ascii (input : List Char) (h : ∀ c ∈ input, c.utf8Size = 1)
    (rules : MMap) (L : Nat) :
    ∀ (is : List Nat), (∀ i ∈ is, i ≤ input.length) →
      ∀ res, forI input rules L is res =
        .ok (res ++ is.flatMap (blockAt input rules L)) := by
  intro is
  induction is with
  | nil => intro _ res; simp [forI]
  | cons i rest ih =>
    intro his res
    have hi : i ≤ input.length := his i (by simp)
    have hrest : ∀ x ∈ rest, x ≤ input.length := fun x hx => his x (by simp [hx])
    have hbounds : ∀ j ∈ List.range' i (min input.length (i + L) - i),
        i ≤ j ∧ j ≤ input.length := by
      intro j hj
      rw [List.mem_range'_1] at hj
      have hm := Nat.min_le_left input.length (i + L)
      omega
    simp only [forI, byteLen_eq_length input h, sliceE_take input h i hi,
      sliceE_drop' input h i hi,
      forJ_ascii input h rules i hi (List.range' i (min input.length (i + L) - i)) hbounds,
      ih hrest]
    simp [blockAt, sandhiAt, List.append_assoc]

theorem split_ascii_canon (input : List Char) (rules : MMap) (L : Nat)
    (h : ∀ c ∈ input, c.utf8Size = 1) (hL : maxKeyLenOpt rules = some L) :
    split input rules = .ok (splitChars input rules L) := by
  rw [split, hL]
  simp only [byteLen_eq_length input h,
    forI_ascii input h rules L (List.range input.length)
      (fun i hi => le_of_lt (List.mem_range.mp hi))]
  simp [splitChars]

theorem get_vec_mmInsert (m : MMap) (k k' : List Char) (v : List Char × List Char) :
    get_vec (mmInsert m k v) k' =
      if k' = k then some (lookupL m k' ++ [v]) else get_vec m k' := by
  induction m with
  | nil =>
    by_cases hk : k' = k
    · simp [mmInsert, get_vec, lookupL, hk]
    · have hk2 : ¬(k = k') := fun hh => hk hh.symm
      simp [mmInsert, get_vec, lookupL, hk, hk2]
  | cons e rest ih =>
    by_cases h1 : e.1 = k
    · by_cases h2 : e.1 = k'
      · have hkk : k' = k := by rw [← h2, h1]
        simp [mmInsert, get_vec, lookupL, h1, h2, hkk]
      · have hne : ¬(k' = k) := fun hh => h2 (by rw [h1, hh])
        have hne2 : ¬(k = k') := fun hh => hne hh.symm
        simp [mmInsert, get_vec, lookupL, h1, h2, hne, hne2]
    · by_cases h2 : e.1 = k'
      · have hne : ¬(k' = k) := fun hh => h1 (by rw [h2, hh])
        simp [mmInsert, get_vec, lookupL, h1, h2, hne]
      · simp [mmInsert, get_vec, lookupL, h1, h2, ih]

theorem lookupL_mmInsert (m : MMap) (k k' : List Char) (v : List Char × List Char) :
    lookupL (mmInsert m k v) k' =
      if k' = k then lookupL m k' ++ [v] else lookupL m k' := by
  rw [lookupL, get_vec_mmInsert]
  by_cases hk : k' = k <;> simp [hk, lookupL]

/-- A rule table obtained by a sequence of `insert` operations, starting from
the empty `MultiMap` (the shape every table in the program has). -/
def buildTable (inserts : List (List Char × (List Char × List Char))) : MMap :=
  inserts.foldl (fun m e => mmInsert m e.1 e.2) []

theorem lookupL_foldl (inserts : List (List Char × (List Char × List Char))) :
    ∀ (m : MMap) (k : List Char),
      lookupL (inserts.foldl (fun m e => mmInsert m e.1 e.2) m) k =
        lookupL m k ++ (inserts.filter (fun e => e.1 == k)).map (fun e => e.2) := by
  induction inserts with
  | nil => intro m k; simp
  | cons e rest ih =>
    intro m k
    rw [List.foldl_cons, ih]
    by_cases he : e.1 = k
    · simp [List.filter_cons, he, lookupL_mmInsert, List.append_assoc, eq_comm]
    · have hke : ¬(k = e.1) := fun hh => he hh.symm
      simp [List.filter_cons, he, lookupL_mmInsert, hke]

/-- The one or two table insertions `read_sandhi_rules` performs for a row. -/
def rowInserts (row : List Char × List Char × List Char) :
    List (List Char × (List Char × List Char)) :=
  (row.2.2, (row.1, row.2.1)) ::
    (if removeSpaces row.2.2 ≠ row.2.2
     then [(removeSpaces row.2.2, (row.1, row.2.1))] else [])

theorem read_sandhi_rules_foldl (rows : List (List Char × List Char × List Char)) :
    ∀ m : MMap,
      rows.foldl
        (fun rules row =>
          let rules1 := mmInsert rules row.2.2 (row.1, row.2.1)
          if removeSpaces row.2.2 ≠ row.2.2
          then mmInsert rules1 (removeSpaces row.2.2) (row.1, row.2.1)
          else rules1)
        m =
      (rows.flatMap rowInserts).foldl (fun m e => mmInsert m e.1 e.2) m := by
  induction rows with
  | nil => intro m; rfl
  | cons row rest ih =>
    intro m
    rw [List.flatMap_cons, List.foldl_append, List.foldl_cons, ih]
    by_cases hsp : removeSpaces row.2.2 ≠ row.2.2 <;>
      simp [rowInserts, hsp]

theorem read_sandhi_rules_eq_buildTable (rows : List (List Char × List Char × List Char)) :
    read_sandhi_rules rows = buildTable (rows.flatMap rowInserts) := by
  rw [read_sandhi_rules, buildTable]
  exact read_sandhi_rules_foldl rows []

/-- Modelled from the spec: the feature map of a token record (the `conllu`
module with `TokenFeatures` is not part of the sources here); a mapping from
feature names to string values. -/
abbrev TokenFeatures := List (String × String)

/-- Modelled from the spec: `HashMap::get` over the feature map — the value
for a feature name, if present. -/
def fget (f : TokenFeatures) (k : String) : Option String :=
  match f with
  | [] => none
  | e :: rest => if e.1 = k then some e.2 else fget rest k

/-- Modelled from the spec: a token record (the `conllu` module is not part
of the sources here) with its lemma string, part-of-speech category, and
feature map — the three fields `standardize` reads. -/
structure Token where
  «lemma» : String
  upos : String
  features : TokenFeatures

/-- Model of `Linga` (gender), from the `semantics` module as used by src/dcs.rs. -/
inductive Linga where
  | Pum | Stri | Napumsaka | None
  deriving DecidableEq

/-- Model of `Vibhakti` (case), from the `semantics` module as used by src/dcs.rs. -/
inductive Vibhakti where
  | V1 | V2 | V3 | V4 | V5 | V6 | V7 | Sambodhana | None
  deriving DecidableEq

/-- Model of `Purusha` (person), from the `semantics` module as used by src/dcs.rs. -/
inductive Purusha where
  | Prathama | Madhyama | Uttama | None
  deriving DecidableEq

/-- Model of `Vacana` (number), from the `semantics` module as used by src/dcs.rs. -/
inductive Vacana where
  | Eka | Dvi | Bahu | None
  deriving DecidableEq

/-- Model of `Lakara` (tense/mood), from the `semantics` module as used by src/dcs.rs. -/
inductive Lakara where
  | Lat | Lit | Lut | Lrt | Lot | Lan | LinVidhi | LinAshih | Lun | LunNoAgama | Lrn
  | None
  deriving DecidableEq

/-- Model of `StemTense`, from the `semantics` module as used by src/dcs.rs. -/
inductive StemTense where
  | Present | Past | Future | None
  deriving DecidableEq

/-- Model of `StemPrayoga`, from the `semantics` module as used by src/dcs.rs. -/
inductive StemPrayoga where
  | None
  deriving DecidableEq

/-- Model of `VerbPada`, from the `semantics` module as used by src/dcs.rs. -/
inductive VerbPada where
  | None
  deriving DecidableEq

/-- Model of `Stem`, from the `semantics` module as used by src/dcs.rs. -/
inductive Stem where
  | Basic (stem : String) (lingas : List Linga)
  | Krdanta (root : String) (tense : StemTense) (prayoga : StemPrayoga)
  deriving DecidableEq

/-- Model of `Subanta`, from the `semantics` module as used by src/dcs.rs. -/
structure Subanta where
  stem : Stem
  linga : Linga
  vacana : Vacana
  vibhakti : Vibhakti
  is_purvapada : Bool
  deriving DecidableEq

/-- Model of `Tinanta`, from the `semantics` module as used by src/dcs.rs. -/
structure Tinanta where
  root : String
  purusha : Purusha
  vacana : Vacana
  lakara : Lakara
  pada : VerbPada
  deriving DecidableEq

/-- Model of `Semantics`, from the `semantics` module as used by src/dcs.rs. -/
inductive Semantics where
  | Subanta (s : Subanta)
  | Tinanta (t : Tinanta)
  | Avyaya
  | None
  deriving DecidableEq

/-- Model of `ParsedWord`, from the `parsing` module as used by src/dcs.rs. -/
structure ParsedWord where
  text : String
  semantics : Semantics
  deriving DecidableEq

/-- Result of a dcs.rs conversion: `Ok`, a `ConversionError` carrying the
string it was constructed with (its single payload field), or a panic with
its message. -/
inductive DcsResult (α : Type) where
  | ok (val : α)
  | convError (raw : String)
  | panicked (msg : String)
  deriving DecidableEq

/-- The `?` operator of Rust on a dcs.rs `Result`. -/
def DcsResult.bind {α β : Type} : DcsResult α → (α → DcsResult β) → DcsResult β
  | .ok a, f => f a
  | .convError s, _ => .convError s
  | .panicked m, _ => .panicked m

/-- Model of `parse_tense` (src/dcs.rs lines 135-146). -/
def parse_tense (f : TokenFeatures) : DcsResult StemTense :=
  match fget f "Tense" with
  | some s =>
    match s with
    | "Pres" => .ok .Present
    | "Past" => .ok .Past
    | "Fut" => .ok .Future
    | _ => .convError s
  | none => .ok .None

/-- Model of `parse_linga` (src/dcs.rs lines 149-160). -/
def parse_linga (f : TokenFeatures) : DcsResult Linga :=
  match fget f "Gender" with
  | some s =>
    match s with
    | "Masc" => .ok .Pum
    | "Fem" => .ok .Stri
    | "Neut" => .ok .Napumsaka
    | _ => .convError s
  | none => .ok .None

/-- Model of `parse_vibhakti` (src/dcs.rs lines 163-180). -/
def parse_vibhakti (f : TokenFeatures) : DcsResult Vibhakti :=
  match fget f "Case" with
  | some s =>
    match s with
    | "Nom" => .ok .V1
    | "Acc" => .ok .V2
    | "Ins" => .ok .V3
    | "Dat" => .ok .V4
    | "Abl" => .ok .V5
    | "Gen" => .ok .V6
    | "Loc" => .ok .V7
    | "Voc" => .ok .Sambodhana
    | "Cpd" => .ok .None
    | _ => .convError s
  | none => .ok .None

/-- Model of `parse_is_purvapada` (src/dcs.rs lines 183-191). -/
def parse_is_purvapada (f : TokenFeatures) : Bool :=
  match fget f "Case" with
  | some s =>
    match s with
    | "Cpd" => true
    | _ => false
  | none => false

/-- Model of `parse_purusha` (src/dcs.rs lines 194-205). -/
def parse_purusha (f : TokenFeatures) : DcsResult Purusha :=
  match fget f "Person" with
  | some s =>
    match s with
    | "3" => .ok .Prathama
    | "2" => .ok .Madhyama
    | "1" => .ok .Uttama
    | _ => .convError s
  | none => .ok .None

/-- Model of `parse_vacana` (src/dcs.rs lines 208-219).  Note: on an unrecognized
value the error is built from the fixed string "Could not parse number",
not from `s`. -/
def parse_vacana (f : TokenFeatures) : DcsResult Vacana :=
  match fget f "Number" with
  | some s =>
    match s with
    | "Sing" => .ok .Eka
    | "Dual" => .ok .Dvi
    | "Plur" => .ok .Bahu
    | _ => .convError "Could not parse number"
  | none => .ok .None

/-- The tense/mood table of `parse_lakara` (src/dcs.rs lines 232-248): the
fourteen explicitly matched pairs in source order, with the catch-all arm
mapping everything else to `Lakara::None`; the Rust `match` tests its arms
in order, rendered here as an ordered chain of tests. -/
def lakara_of (tense mood : String) : Lakara :=
  if tense = "Aor" ∧ mood = "Ind" then .Lun
  else if tense = "Aor" ∧ mood = "Imp" then .None
  else if tense = "Aor" ∧ mood = "Jus" then .LunNoAgama
  else if tense = "Aor" ∧ mood = "Prec" then .LinAshih
  else if tense = "Fut" ∧ mood = "Cond" then .Lrn
  else if tense = "Fut" ∧ mood = "Ind" then .Lrt
  else if tense = "Impf" ∧ mood = "Ind" then .Lan
  else if tense = "Perf" ∧ mood = "Ind" then .Lit
  else if tense = "Perf" ∧ mood = "Sub" then .None
  else if tense = "Pres" ∧ mood = "Imp" then .Lot
  else if tense = "Pres" ∧ mood = "Ind" then .Lat
  else if tense = "Pres" ∧ mood = "Jus" then .None
  else if tense = "Pres" ∧ mood = "Opt" then .LinVidhi
  else if tense = "Pres" ∧ mood = "Sub" then .Lot
  else .None

/-- Model of `parse_lakara` (src/dcs.rs lines 222-250). -/
def parse_lakara (f : TokenFeatures) : DcsResult Lakara :=
  match fget f "Tense" with
  | none => .convError "`Tense` not found"
  | some tense =>
    match fget f "Mood" with
    | none => .convError "`Mood` not found"
    | some mood => .ok (lakara_of tense mood)

/-- Model of `parse_verb_pada` (src/dcs.rs lines 252-255). -/
def parse_verb_pada (_f : TokenFeatures) : VerbPada := .None

/-- Model of `standardize_lemma` (src/dcs.rs lines 53-70), parameterized by the
external transliteration function `to_slp1` of the `translit` module, which
is not part of the sources here. -/
def standardize_lemma (slp1 : String → String) (raw_lemma : String) : String :=
  let lem := slp1 raw_lemma
  if lem.endsWith "ant" then lem.dropRight 3 ++ "at"
  else if lem.endsWith "ay" then lem.dropRight 2
  else
    match lem with
    | "mad" => "asmad"
    | "tvad" => "yuzmad"
    | "ka" => "kim"
    | _ => lem

/-- Model of `parse_stem` (src/dcs.rs lines 127-132). -/
def parse_stem (slp1 : String → String) (t : Token) : Stem :=
  .Basic (standardize_lemma slp1 t.«lemma») []

/-- Model of `parse_subanta` (src/dcs.rs lines 73-87). -/
def parse_subanta (slp1 : String → String) (t : Token) : DcsResult Semantics :=
  (parse_linga t.features).bind fun linga =>
  (parse_vibhakti t.features).bind fun vibhakti =>
  (parse_vacana t.features).bind fun vacana =>
  .ok (.Subanta { stem := parse_stem slp1 t, linga := linga, vacana := vacana,
                  vibhakti := vibhakti, is_purvapada := parse_is_purvapada t.features })

/-- Model of `parse_verb` (src/dcs.rs lines 90-103). -/
def parse_verb (slp1 : String → String) (t : Token) : DcsResult Semantics :=
  (parse_purusha t.features).bind fun purusha =>
  (parse_vacana t.features).bind fun vacana =>
  (parse_lakara t.features).bind fun lakara =>
  .ok (.Tinanta { root := standardize_lemma slp1 t.«lemma», purusha := purusha,
                  vacana := vacana, lakara := lakara,
                  pada := parse_verb_pada t.features })

/-- Model of `parse_participle` (src/dcs.rs lines 106-124). -/
def parse_participle (slp1 : String → String) (t : Token) : DcsResult Semantics :=
  (parse_tense t.features).bind fun tense =>
  (parse_linga t.features).bind fun linga =>
  (parse_vibhakti t.features).bind fun vibhakti =>
  (parse_vacana t.features).bind fun vacana =>
  .ok (.Subanta { stem := .Krdanta (standardize_lemma slp1 t.«lemma») tense .None,
                  linga := linga, vacana := vacana, vibhakti := vibhakti,
                  is_purvapada := parse_is_purvapada t.features })

/-- Model of `standardize` (src/dcs.rs lines 30-50): dispatch on the part-of-speech
category; an unrecognized category is a panic, not an error value. -/
def standardize (slp1 : String → String) (t : Token) : DcsResult ParsedWord :=
  (match t.upos with
   | "NOUN" | "PRON" | "ADJ" | "PART" | "NUM" => parse_subanta slp1 t
   | "CCONJ" | "SCONJ" | "ADV" => .ok Semantics.Avyaya
   | "VERB" =>
     if (fget t.features "VerbForm").isSome then parse_participle slp1 t
     else parse_verb slp1 t
   | "MANTRA" => .ok Semantics.None
   | _ => .panicked ("Unknown upos `" ++ t.upos ++ "`")).bind fun semantics =>
  .ok { text := standardize_lemma slp1 t.«lemma», semantics := semantics }

/-- Claim C1, counterexample: with the single rule (a, i, e) the table's
maximum key length is 1 and the key "e" maps to (a, i), so the claim demands
the candidate ("ta", "i") for input "te" (window length 1 at position 1);
the code emits only the two baseline candidates, because its window loop
probes lengths 0..L-1 and never length L. -/
theorem split_window_counterexample :
    maxKeyLenOpt (read_sandhi_rules [(['a'], ['i'], ['e'])]) = some 1 ∧
    lookupL (read_sandhi_rules [(['a'], ['i'], ['e'])]) ['e'] = [(['a'], ['i'])] ∧
    split ['t', 'e'] (read_sandhi_rules [(['a'], ['i'], ['e'])]) =
      .ok [([], ['t', 'e']), (['t'], ['e'])] ∧
    (['t', 'a'], ['i']) ∉ [([], ['t', 'e']), (['t'], ['e'])] := by
  decide

/-- Claim C1 (amended): for one-byte-per-character input and a non-empty
table with maximum key byte length L, the splitter queries the table with
the substring `input[i..j]` for every window end j with i ≤ j strictly below
`min (length input) (i + L)` — window lengths 0 through L-1, never L — and
for every decomposition pair (first, second) the table returns for that
substring it emits the candidate
`(input[0..i] + first, second + input[j..end])`. -/
theorem split_emits_window_candidates (input : List Char) (rules : MMap) (L : Nat)
    (h : ∀ c ∈ input, c.utf8Size = 1) (hL : maxKeyLenOpt rules = some L)
    (i j : Nat) (hij : i ≤ j) (hj : j < min input.length (i + L))
    (p : List Char × List Char)
    (hp : p ∈ lookupL rules ((input.drop i).take (j - i))) :
    ∃ out, split input rules = .ok out ∧
      (input.take i ++ p.1, p.2 ++ input.drop j) ∈ out := by
  refine ⟨splitChars input rules L, split_ascii_canon input rules L h hL, ?_⟩
  have hi : i < input.length := by
    have hm := Nat.min_le_left input.length (i + L)
    omega
  rw [splitChars]
  apply List.mem_flatMap.mpr
  refine ⟨i, List.mem_range.mpr hi, ?_⟩
  rw [blockAt]
  apply List.mem_cons_of_mem
  rw [sandhiAt]
  apply List.mem_flatMap.mpr
  refine ⟨j, ?_, List.mem_map.mpr ⟨p, hp, rfl⟩⟩
  rw [List.mem_range'_1]
  omega

/-- Witness for the amended claim C1: with rules (a, i, e) and (x, y, qq)
the maximum key length is 2, and for input "tex" the window [1, 2) matches
"e", emitting ("ta", "ix"). -/
theorem split_emits_window_candidates_witness :
    ∃ out,
      split ['t', 'e', 'x']
          (read_sandhi_rules [(['a'], ['i'], ['e']), (['x'], ['y'], ['q', 'q'])]) =
        .ok out ∧
      (['t', 'a'], ['i', 'x']) ∈ out :=
  split_emits_window_candidates ['t', 'e', 'x']
    (read_sandhi_rules [(['a'], ['i'], ['e']), (['x'], ['y'], ['q', 'q'])]) 2
    (by decide) (by decide) 1 2 (by decide) (by decide) (['a'], ['i']) (by decide)

/-- Claim C2: the code indexes the input by bytes, not characters; slicing
the 2-byte character 'é' at byte offset 1 is not a character boundary and
the Rust program panics instead of succeeding.  Concrete run of the model at
the failing input. -/
theorem split_panics_on_multibyte :
    split ['é'] (read_sandhi_rules [(['a'], ['i'], ['e'])]) = .err .charBoundaryPanic := by
  decide

/-- Claim C3, counterexample: splitting "a" against the table built from
zero records does not produce the spec's typed `EmptyTableError`. -/
theorem empty_table_not_typed_error :
    split ['a'] (read_sandhi_rules []) ≠ .err .emptyTableError := by
  decide

/-- Claim C3 (amended): for every input, splitting against the table built
from zero rule records fails by panicking with the message "Map is empty"
(a process-aborting panic from `expect`, not a typed propagated error
value), and produces no candidates. -/
theorem empty_table_panics (input : List Char) :
    split input (read_sandhi_rules []) = .err (.panicked "Map is empty") := rfl

/-- Claim C4: for one-byte-per-character input and a non-empty table, the
candidates are emitted primarily by split position i ascending; within a
position the baseline candidate first, then the window ends j ascending
(window length ascending), and within one window the pairs in the order the
table stores them for the matched key (its registration order). -/
theorem split_emission_order (input : List Char) (rules : MMap) (L : Nat)
    (h : ∀ c ∈ input, c.utf8Size = 1) (hL : maxKeyLenOpt rules = some L) :
    split input rules =
      .ok ((List.range input.length).flatMap (fun i =>
        (input.take i, input.drop i) ::
          (List.range' i (min input.length (i + L) - i)).flatMap (fun j =>
            (lookupL rules ((input.drop i).take (j - i))).map (fun p =>
              (input.take i ++ p.1, p.2 ++ input.drop j))))) := by
  rw [split_ascii_canon input rules L h hL]
  refine congrArg SplitRes.ok ?_
  rw [splitChars]
  refine congrArg (List.range input.length).flatMap ?_
  funext i
  simp [blockAt, sandhiAt]

/-- Witness for claim C4 at input "te" with the single rule (a, i, e). -/
theorem split_emission_order_witness :
    split ['t', 'e'] (read_sandhi_rules [(['a'], ['i'], ['e'])]) =
      .ok ((List.range (['t', 'e'] : List Char).length).flatMap (fun i =>
        (List.take i ['t', 'e'], List.drop i ['t', 'e']) ::
          (List.range' i
              (min (['t', 'e'] : List Char).length (i + 1) - i)).flatMap (fun j =>
            (lookupL (read_sandhi_rules [(['a'], ['i'], ['e'])])
                (List.take (j - i) (List.drop i ['t', 'e']))).map (fun p =>
              (List.take i ['t', 'e'] ++ p.1, p.2 ++ List.drop j ['t', 'e']))))) :=
  split_emission_order ['t', 'e'] (read_sandhi_rules [(['a'], ['i'], ['e'])]) 1
    (by decide) (by decide)

/-- Claim C5: for one-byte-per-character input and a non-empty table, the
block of candidates emitted at each position i starts with the baseline
candidate (input[0..i], input[i..end]), and that candidate's prefix and
suffix concatenate back to the original input. -/
theorem baseline_first_and_reconstructs (input : List Char) (rules : MMap) (L : Nat)
    (h : ∀ c ∈ input, c.utf8Size = 1) (hL : maxKeyLenOpt rules = some L) :
    split input rules = .ok ((List.range input.length).flatMap (blockAt input rules L)) ∧
    ∀ i, i < input.length →
      (blockAt input rules L i).head? = some (input.take i, input.drop i) ∧
      input.take i ++ input.drop i = input := by
  refine ⟨by rw [split_ascii_canon input rules L h hL]; simp [splitChars], ?_⟩
  intro i _
  exact ⟨rfl, List.take_append_drop i input⟩

/-- Witness for claim C5 at input "te", position 1. -/
theorem baseline_first_and_reconstructs_witness :
    split ['t', 'e'] (read_sandhi_rules [(['a'], ['i'], ['e'])]) =
      .ok ((List.range (['t', 'e'] : List Char).length).flatMap
        (blockAt ['t', 'e'] (read_sandhi_rules [(['a'], ['i'], ['e'])]) 1)) ∧
    (blockAt ['t', 'e'] (read_sandhi_rules [(['a'], ['i'], ['e'])]) 1 1).head? =
      some (['t'], ['e']) ∧
    ['t'] ++ ['e'] = ['t', 'e'] :=
  have h := baseline_first_and_reconstructs ['t', 'e']
    (read_sandhi_rules [(['a'], ['i'], ['e'])]) 1 (by decide) (by decide)
  ⟨h.1, (h.2 1 (by decide)).1, (h.2 1 (by decide)).2⟩

/-- Claim C6: for every rule record (l, r, c) in the rule source, table
construction registers the pair under the combined form c, and — when the
space-stripped form differs — also under the space-stripped form; for the
table built from such a record, looking up the space-stripped form returns
the same pairs as looking up the original form, namely exactly [(l, r)],
and two keys are registered; when the two forms are identical only one key
is registered. -/
theorem secondary_key_registration (rows : List (List Char × List Char × List Char))
    (l r c : List Char) :
    ((l, r, c) ∈ rows →
      (l, r) ∈ lookupL (read_sandhi_rules rows) c ∧
      (removeSpaces c ≠ c →
        (l, r) ∈ lookupL (read_sandhi_rules rows) (removeSpaces c))) ∧
    (removeSpaces c ≠ c →
      lookupL (read_sandhi_rules [(l, r, c)]) (removeSpaces c) =
        lookupL (read_sandhi_rules [(l, r, c)]) c ∧
      lookupL (read_sandhi_rules [(l, r, c)]) c = [(l, r)] ∧
      (read_sandhi_rules [(l, r, c)]).length = 2) ∧
    (removeSpaces c = c →
      (read_sandhi_rules [(l, r, c)]).length = 1 ∧
      lookupL (read_sandhi_rules [(l, r, c)]) c = [(l, r)]) := by
  refine ⟨fun hmem => ?_, fun hne => ?_, fun heq => ?_⟩
  · have hkey : ∀ k, (k, (l, r)) ∈ rowInserts (l, r, c) →
        (l, r) ∈ lookupL (read_sandhi_rules rows) k := by
      intro k hk
      rw [read_sandhi_rules_eq_buildTable, buildTable, lookupL_foldl]
      have hlq : (l, r) ∈
          ((rows.flatMap rowInserts).filter (fun e => e.1 == k)).map
            (fun e => e.2) := by
        refine List.mem_map.mpr ⟨(k, (l, r)), ?_, rfl⟩
        refine List.mem_filter.mpr ⟨?_, by simp⟩
        exact List.mem_flatMap.mpr ⟨(l, r, c), hmem, hk⟩
      simpa [lookupL, get_vec] using hlq
    refine ⟨hkey c (by simp [rowInserts]), fun hne => hkey (removeSpaces c) ?_⟩
    simp [rowInserts, hne]
  · have hne' : ¬(c = removeSpaces c) := fun hh => hne hh.symm
    refine ⟨?_, ?_, ?_⟩ <;>
      simp [read_sandhi_rules, mmInsert, get_vec, lookupL, hne, hne']
  · simp [read_sandhi_rules, mmInsert, get_vec, lookupL, heq]

/-- Witness for claim C6 with the record (a, i, "x y"): the stripped key
"xy" differs, both lookups return [(a, i)], and the table has two keys. -/
theorem secondary_key_registration_witness :
    lookupL (read_sandhi_rules [(['a'], ['i'], ['x', ' ', 'y'])]) ['x', 'y'] =
      lookupL (read_sandhi_rules [(['a'], ['i'], ['x', ' ', 'y'])]) ['x', ' ', 'y'] ∧
    lookupL (read_sandhi_rules [(['a'], ['i'], ['x', ' ', 'y'])]) ['x', ' ', 'y'] =
      [(['a'], ['i'])] ∧
    (read_sandhi_rules [(['a'], ['i'], ['x', ' ', 'y'])]).length = 2 :=
  (secondary_key_registration [(['a'], ['i'], ['x', ' ', 'y'])]
    ['a'] ['i'] ['x', ' ', 'y']).2.1 (by decide)

/-- Claim C7: for a table built from any sequence of insert operations,
`lookup` of a key returns exactly the values inserted for that key, in
insertion (registration) order, and no others; for a key never inserted it
returns the empty sequence.  `lookup` is a total function — it never
fails. -/
theorem lookup_fidelity (inserts : List (List Char × (List Char × List Char)))
    (k : List Char) :
    lookupL (buildTable inserts) k =
      (inserts.filter (fun e => e.1 == k)).map (fun e => e.2) ∧
    ((∀ e ∈ inserts, e.1 ≠ k) → lookupL (buildTable inserts) k = []) := by
  have hmain : lookupL (buildTable inserts) k =
      (inserts.filter (fun e => e.1 == k)).map (fun e => e.2) := by
    rw [buildTable, lookupL_foldl]
    simp [lookupL, get_vec]
  refine ⟨hmain, fun hnone => ?_⟩
  rw [hmain]
  have hfil : inserts.filter (fun e => e.1 == k) = [] := by
    rw [List.filter_eq_nil_iff]
    intro e he
    simpa using hnone e he
  rw [hfil, List.map_nil]

/-- Witness for claim C7: the key "q" was never inserted, so its lookup in
the one-entry table is empty. -/
theorem lookup_fidelity_witness :
    lookupL (buildTable [(['e'], (['a'], ['i']))]) ['q'] = [] :=
  (lookup_fidelity [(['e'], (['a'], ['i']))] ['q']).2 (by decide)

/-- Claim C8: the number parser contradicts the error type's own diagnostic
intent — on the unrecognized value "Sg" it builds the `ConversionError` from
the fixed string "Could not parse number" instead of the offending raw
value, unlike the tense, gender, case and person parsers.  Concrete run at
the failing input, with the other four parsers shown carrying their raw
values. -/
theorem vacana_error_drops_raw_value :
    parse_vacana [("Number", "Sg")] = .convError "Could not parse number" ∧
    parse_vacana [("Number", "Sg")] ≠ .convError "Sg" ∧
    parse_tense [("Tense", "Zz")] = .convError "Zz" ∧
    parse_linga [("Gender", "Zz")] = .convError "Zz" ∧
    parse_vibhakti [("Case", "Zz")] = .convError "Zz" ∧
    parse_purusha [("Person", "Zz")] = .convError "Zz" := by
  decide

/-- Claim C9: for every transliteration function and every token whose
part-of-speech category is outside the recognized set, `standardize` panics
with the "Unknown upos" message — an unrecoverable process abort — and in
particular never returns it as a recoverable `ConversionError` value. -/
theorem unknown_upos_panics (slp1 : String → String) (t : Token)
    (h : t.upos ∉ ["NOUN", "PRON", "ADJ", "PART", "NUM", "CCONJ", "SCONJ", "ADV",
      "VERB", "MANTRA"]) :
    standardize slp1 t = .panicked ("Unknown upos `" ++ t.upos ++ "`") := by
  rw [standardize]
  split <;> simp_all [DcsResult.bind]

/-- Witness for claim C9 at the unrecognized category "XYZ". -/
theorem unknown_upos_panics_witness :
    standardize id { «lemma» := "x", upos := "XYZ", features := [] } =
      .panicked ("Unknown upos `" ++ "XYZ" ++ "`") :=
  unknown_upos_panics id { «lemma» := "x", upos := "XYZ", features := [] } (by decide)

/-- The fourteen tense/mood pairs `parse_lakara` matches explicitly. -/
def matchedTenseMoodPairs : List (String × String) :=
  [("Aor", "Ind"), ("Aor", "Imp"), ("Aor", "Jus"), ("Aor", "Prec"),
   ("Fut", "Cond"), ("Fut", "Ind"), ("Impf", "Ind"), ("Perf", "Ind"),
   ("Perf", "Sub"), ("Pres", "Imp"), ("Pres", "Ind"), ("Pres", "Jus"),
   ("Pres", "Opt"), ("Pres", "Sub")]

theorem lakara_of_default (t m : String) (h : (t, m) ∉ matchedTenseMoodPairs) :
    lakara_of t m = .None := by
  simp only [matchedTenseMoodPairs, List.mem_cons, List.mem_singleton, not_or,
    Prod.mk.injEq] at h
  obtain ⟨h1, h2, h3, h4, h5, h6, h7, h8, h9, h10, h11, h12, h13, h14, -⟩ := h
  rw [lakara_of, if_neg h1, if_neg h2, if_neg h3, if_neg h4, if_neg h5, if_neg h6,
    if_neg h7, if_neg h8, if_neg h9, if_neg h10, if_neg h11, if_neg h12, if_neg h13,
    if_neg h14]

/-- Claim C10: whenever both the "Tense" and the "Mood" features are
present, `parse_lakara` succeeds; any tense/mood combination outside the
fourteen explicitly matched pairs is silently mapped to `Lakara.None`
rather than reported as an error; `parse_lakara` fails exactly when "Tense"
or "Mood" is absent. -/
theorem lakara_total_on_present_features (f : TokenFeatures) (ft fm : String) :
    ((fget f "Tense").isSome ∧ (fget f "Mood").isSome →
      ∃ v, parse_lakara f = .ok v) ∧
    (fget f "Tense" = some ft → fget f "Mood" = some fm →
      (ft, fm) ∉ matchedTenseMoodPairs → parse_lakara f = .ok .None) ∧
    (fget f "Tense" = none → parse_lakara f = .convError "`Tense` not found") ∧
    ((fget f "Tense").isSome → fget f "Mood" = none →
      parse_lakara f = .convError "`Mood` not found") := by
  refine ⟨fun hsome => ?_, fun ht hm hnm => ?_, fun ht => ?_, fun hts hm => ?_⟩
  · obtain ⟨ht, hm⟩ := hsome
    obtain ⟨tv, htv⟩ := Option.isSome_iff_exists.mp ht
    obtain ⟨mv, hmv⟩ := Option.isSome_iff_exists.mp hm
    exact ⟨lakara_of tv mv, by rw [parse_lakara, htv, hmv]⟩
  · simp only [parse_lakara, ht, hm]
    rw [lakara_of_default ft fm hnm]
  · rw [parse_lakara, ht]
  · obtain ⟨tv, htv⟩ := Option.isSome_iff_exists.mp hts
    rw [parse_lakara, htv, hm]

/-- Witness for claim C10: "Aor"/"Xyz" is outside the matched pairs and
maps to `Lakara.None`. -/
theorem lakara_total_on_present_features_witness :
    parse_lakara [("Tense", "Aor"), ("Mood", "Xyz")] = .ok .None :=
  (lakara_total_on_present_features [("Tense", "Aor"), ("Mood", "Xyz")]
    "Aor" "Xyz").2.1 (by decide) (by decide) (by decide)
